import Mathlib

/-!
Shallow embedding of `main.py` of the `job_portal_scraping` repository:
a job-listing scraper that normalizes extracted text, fingerprints each
listing with MD5 over `title + company + location`, deduplicates via an
insert-or-ignore keyed on that fingerprint, aggregates salaries by
location, and conditionally emails a daily report.
-/

namespace JobScraper

/-! ### Character classes

Python's `\s` (for the ASCII range) and `str.strip()` whitespace set:
space, tab, newline, carriage return, vertical tab, form feed.
`isDigitC` is `\d` / `[0-9]`.
-/

/-- ASCII whitespace as matched by Python's `\s` and stripped by `str.strip()`. -/
def isPS (c : Char) : Bool :=
  c = ' ' || c = '\t' || c = '\n' || c = '\r' || c = '\x0b' || c = '\x0c'

/-- ASCII decimal digit, Python's `\d` on the relevant inputs. -/
def isDigitC (c : Char) : Bool :=
  48 ≤ c.toNat && c.toNat ≤ 57

/-- ASCII lowercasing of one character, modelling Python `str.lower()`
on the ASCII inputs this program manipulates. -/
def lowerAscii (c : Char) : Char :=
  if 65 ≤ c.toNat && c.toNat ≤ 90 then Char.ofNat (c.toNat + 32) else c

/-- `str.lower()` on a character list. -/
def pyLower (l : List Char) : List Char := l.map lowerAscii

/-! ### `WebScraper.clean_text`

Source (`main.py` lines 313-317):
```
def clean_text(self, text: str) -> str:
    if not text:
        return ""
    return re.sub(r'\s+', ' ', text.strip())
```
-/

/-- Remove trailing `isPS` whitespace (the right half of `str.strip()`). -/
def dropTrail (l : List Char) : List Char :=
  (l.reverse.dropWhile isPS).reverse

/-- Python `str.strip()`: drop leading and trailing whitespace. -/
def stripChars (l : List Char) : List Char :=
  dropTrail (l.dropWhile isPS)

/-- `re.sub(r'\s+', ' ', ·)` on a character list; the Bool flag records
whether we are inside a whitespace run whose single `' '` was already
emitted. -/
def collapseF : Bool → List Char → List Char
  | _, [] => []
  | inWS, c :: t =>
    if isPS c then
      if inWS then collapseF true t else ' ' :: collapseF true t
    else
      c :: collapseF false t

/-- `WebScraper.clean_text` for an actual string argument (the
`if not text` guard is the emptiness test on a `str`). -/
def clean_text (s : String) : String :=
  if s = "" then "" else String.mk (collapseF false (stripChars s.data))

/-- `WebScraper.clean_text` including the `None` case of `if not text`. -/
def clean_text_opt : Option String → String
  | none => ""
  | some s => clean_text s

/-- Invariant of cleaned text, scanned left to right; the flag records
whether the previous character was the single `' '` of a collapsed run
(in which case the next character must be a non-whitespace one and the
list must not end). -/
def goodF : Bool → List Char → Bool
  | true, [] => false
  | false, [] => true
  | true, c :: t => !isPS c && goodF false t
  | false, c :: t => if isPS c then c = ' ' && goodF true t else goodF false t

/-- Cleaned-text invariant: no leading whitespace, every whitespace run
is a single `' '` followed by more text, no trailing whitespace. -/
def good : List Char → Bool
  | [] => true
  | c :: t => !isPS c && goodF false t

/-- The last character, if any, is not whitespace. -/
def noTrailB (l : List Char) : Bool :=
  l.getLast?.all fun c => !isPS c

/-- The first character, if any, is not whitespace. -/
def headOkB (l : List Char) : Bool :=
  l.head?.all fun c => !isPS c

/-! ### `WebScraper.generate_hash_id` — MD5

Source (`main.py` lines 308-311):
```
def generate_hash_id(self, job_data: Dict) -> str:
    unique_string = f"{job_data['title']}{job_data['company']}{job_data['location']}"
    return hashlib.md5(unique_string.encode()).hexdigest()
```
`hashlib.md5(...).hexdigest()` is the standard MD5 (RFC 1321) of the
UTF-8 encoding, rendered as 32 lowercase hex characters; it is embedded
here in full.
-/

/-- UTF-8 encoding of one character (`str.encode()`), as byte values. -/
def utf8Char (c : Char) : List Nat :=
  let n := c.toNat
  if n < 128 then [n]
  else if n < 2048 then [192 + n / 64, 128 + n % 64]
  else if n < 65536 then [224 + n / 4096, 128 + n / 64 % 64, 128 + n % 64]
  else [240 + n / 262144, 128 + n / 4096 % 64, 128 + n / 64 % 64, 128 + n % 64]

/-- UTF-8 bytes of a string. -/
def utf8Bytes (s : String) : List Nat :=
  s.data.flatMap utf8Char

/-- Little-endian 4-byte rendering of a 32-bit word. -/
def le4 (w : Nat) : List Nat :=
  [w % 256, w / 256 % 256, w / 65536 % 256, w / 16777216 % 256]

/-- Little-endian 8-byte rendering of a 64-bit length field. -/
def le8 (w : Nat) : List Nat :=
  [w % 256, w / 2 ^ 8 % 256, w / 2 ^ 16 % 256, w / 2 ^ 24 % 256,
   w / 2 ^ 32 % 256, w / 2 ^ 40 % 256, w / 2 ^ 48 % 256, w / 2 ^ 56 % 256]

/-- MD5 round constants `K[i] = floor(2^32 * |sin(i+1)|)`. -/
def md5K : List Nat :=
  [0xd76aa478, 0xe8c7b756, 0x242070db, 0xc1bdceee,
   0xf57c0faf, 0x4787c62a, 0xa8304613, 0xfd469501,
   0x698098d8, 0x8b44f7af, 0xffff5bb1, 0x895cd7be,
   0x6b901122, 0xfd987193, 0xa679438e, 0x49b40821,
   0xf61e2562, 0xc040b340, 0x265e5a51, 0xe9b6c7aa,
   0xd62f105d, 0x02441453, 0xd8a1e681, 0xe7d3fbc8,
   0x21e1cde6, 0xc33707d6, 0xf4d50d87, 0x455a14ed,
   0xa9e3e905, 0xfcefa3f8, 0x676f02d9, 0x8d2a4c8a,
   0xfffa3942, 0x8771f681, 0x6d9d6122, 0xfde5380c,
   0xa4beea44, 0x4bdecfa9, 0xf6bb4b60, 0xbebfbc70,
   0x289b7ec6, 0xeaa127fa, 0xd4ef3085, 0x04881d05,
   0xd9d4d039, 0xe6db99e5, 0x1fa27cf8, 0xc4ac5665,
   0xf4292244, 0x432aff97, 0xab9423a7, 0xfc93a039,
   0x655b59c3, 0x8f0ccc92, 0xffeff47d, 0x85845dd1,
   0x6fa87e4f, 0xfe2ce6e0, 0xa3014314, 0x4e0811a1,
   0xf7537e82, 0xbd3af235, 0x2ad7d2bb, 0xeb86d391]

/-- MD5 per-round left-rotation amounts. -/
def md5S : List Nat :=
  [7, 12, 17, 22, 7, 12, 17, 22, 7, 12, 17, 22, 7, 12, 17, 22,
   5, 9, 14, 20, 5, 9, 14, 20, 5, 9, 14, 20, 5, 9, 14, 20,
   4, 11, 16, 23, 4, 11, 16, 23, 4, 11, 16, 23, 4, 11, 16, 23,
   6, 10, 15, 21, 6, 10, 15, 21, 6, 10, 15, 21, 6, 10, 15, 21]

/-- 32-bit left rotation (inputs below `2^32`). -/
def rotl32 (x n : Nat) : Nat :=
  ((x * 2 ^ n) % 2 ^ 32) ||| (x / 2 ^ (32 - n))

/-- MD5 nonlinear function for round `i`. -/
def md5F (i b c d : Nat) : Nat :=
  if i < 16 then (b &&& c) ||| ((4294967295 ^^^ b) &&& d)
  else if i < 32 then (d &&& b) ||| ((4294967295 ^^^ d) &&& c)
  else if i < 48 then b ^^^ c ^^^ d
  else c ^^^ (b ||| (4294967295 ^^^ d))

/-- MD5 message-word index for round `i`. -/
def md5G (i : Nat) : Nat :=
  if i < 16 then i
  else if i < 32 then (5 * i + 1) % 16
  else if i < 48 then (3 * i + 5) % 16
  else (7 * i) % 16

/-- Little-endian 32-bit word `g` of a 64-byte chunk. -/
def wordAt (chunk : List Nat) (g : Nat) : Nat :=
  chunk.getD (4 * g) 0 + 256 * chunk.getD (4 * g + 1) 0 +
    65536 * chunk.getD (4 * g + 2) 0 + 16777216 * chunk.getD (4 * g + 3) 0

/-- One MD5 round applied to the working state `(a, b, c, d)`. -/
def md5Round (chunk : List Nat) (st : Nat × Nat × Nat × Nat) (i : Nat) :
    Nat × Nat × Nat × Nat :=
  let (a, b, c, d) := st
  let f := (md5F i b c d + a + md5K.getD i 0 + wordAt chunk (md5G i)) % 2 ^ 32
  (d, (b + rotl32 f (md5S.getD i 0)) % 2 ^ 32, b, c)

/-- Process one 64-byte chunk: 64 rounds, then add into the state mod `2^32`. -/
def md5Chunk (st : Nat × Nat × Nat × Nat) (chunk : List Nat) :
    Nat × Nat × Nat × Nat :=
  let (a0, b0, c0, d0) := st
  let (a, b, c, d) := (List.range 64).foldl (md5Round chunk) st
  ((a0 + a) % 2 ^ 32, (b0 + b) % 2 ^ 32, (c0 + c) % 2 ^ 32, (d0 + d) % 2 ^ 32)

/-- Split into 64-byte chunks; the fuel argument (instantiated with the
length of the list) keeps the recursion structural. -/
def toChunks : Nat → List Nat → List (List Nat)
  | 0, _ => []
  | _, [] => []
  | fuel + 1, l => l.take 64 :: toChunks fuel (l.drop 64)

/-- MD5 padding: `0x80`, zeros to 56 mod 64, then the bit length as a
little-endian 64-bit field. -/
def md5Pad (msg : List Nat) : List Nat :=
  msg ++ [128] ++ List.replicate ((119 - msg.length % 64) % 64) 0 ++
    le8 ((8 * msg.length) % 2 ^ 64)

/-- The 16 digest bytes of MD5 over a byte list. -/
def md5Bytes (msg : List Nat) : List Nat :=
  let padded := md5Pad msg
  let st :=
    (toChunks padded.length padded).foldl md5Chunk
      (0x67452301, 0xefcdab89, 0x98badcfe, 0x10325476)
  le4 st.1 ++ le4 st.2.1 ++ le4 st.2.2.1 ++ le4 st.2.2.2

/-- Lowercase hex digit: codes 48-57 for `0`-`9`, 97-102 for `a`-`f`. -/
def hexDigit (n : Nat) : Char :=
  if n < 10 then Char.ofNat (48 + n) else Char.ofNat (87 + n)

/-- Two lowercase hex characters per byte (`hexdigest()`). -/
def hexBytes (l : List Nat) : List Char :=
  l.flatMap (fun b => [hexDigit (b / 16 % 16), hexDigit (b % 16)])

/-- `hashlib.md5(s.encode()).hexdigest()`. -/
def md5hex (s : String) : String :=
  String.mk (hexBytes (md5Bytes (utf8Bytes s)))

/-- `WebScraper.generate_hash_id`: MD5 hex digest of
`title + company + location` concatenated with no separator. -/
def generate_hash_id (title company location : String) : String :=
  md5hex (title ++ company ++ location)

/-! ### `WebScraper.parse_salary`

Source (`main.py` lines 319-339): after the `if not salary_text` guard
and `clean_text`, the function `re.search`es three patterns (with
`re.IGNORECASE`) and returns the cleaned text on the first match:
```
r'(\d+(?:,\d+)*)\s*(?:to|-)?\s*(\d+(?:,\d+)*)?\s*(?:BDT|Taka|TK)'
r'BDT\s*(\d+(?:,\d+)*)\s*(?:to|-)?\s*(\d+(?:,\d+)*)?'
r'(\d+(?:,\d+)*)\s*(?:to|-)?\s*(\d+(?:,\d+)*)?'
```
otherwise `return salary_text if salary_text.lower() != 'negotiable'
else 'Negotiable'`.

Each sub-pattern matcher below maps an input suffix to the list of all
possible remainders after the sub-pattern consumes a prefix, so pattern
matching at a position succeeds iff the sequential composition has a
nonempty remainder list; `re.search` succeeds iff some start position
matches.
-/

/-- Remainders of `\d+(?:,\d+)*` after its first digit was consumed
(the accepting state: stop here, take another digit, or take a comma
that must be followed by a digit). -/
def mNumD : List Char → List (List Char)
  | [] => [[]]
  | c :: t =>
    (c :: t) ::
      (if isDigitC c then mNumD t
       else if c = ',' then
         match t with
         | [] => []
         | d :: t2 => if isDigitC d then mNumD t2 else []
       else [])

/-- Remainders of `\d+(?:,\d+)*`. -/
def mNum : List Char → List (List Char)
  | [] => []
  | c :: t => if isDigitC c then mNumD t else []

/-- Remainders of `(\d+(?:,\d+)*)?` (the group is optional). -/
def mNumOpt (l : List Char) : List (List Char) :=
  l :: mNum l

/-- Remainders of `\s*`. -/
def mWS : List Char → List (List Char)
  | [] => [[]]
  | c :: t => (c :: t) :: (if isPS c then mWS t else [])

/-- Remainders of `(?:to|-)?` under `re.IGNORECASE`. -/
def mToDash (l : List Char) : List (List Char) :=
  l ::
    ((match l with
      | c1 :: c2 :: t =>
        if lowerAscii c1 = 't' && lowerAscii c2 = 'o' then [t] else []
      | _ => []) ++
     (match l with
      | c :: t => if c = '-' then [t] else []
      | _ => []))

/-- Remainders of a literal word under `re.IGNORECASE` (the word is
given in lowercase). -/
def mLitCI : List Char → List Char → List (List Char)
  | [], l => [l]
  | _ :: _, [] => []
  | w :: ws, c :: t => if lowerAscii c = w then mLitCI ws t else []

/-- Remainders of `(?:BDT|Taka|TK)` under `re.IGNORECASE`. -/
def mCurr (l : List Char) : List (List Char) :=
  mLitCI ['b', 'd', 't'] l ++ mLitCI ['t', 'a', 'k', 'a'] l ++
    mLitCI ['t', 'k'] l

/-- Sequential composition of two sub-pattern matchers. -/
def mSeq (f g : List Char → List (List Char)) (l : List Char) :
    List (List Char) :=
  (f l).flatMap g

/-- First salary pattern:
`(\d+(?:,\d+)*)\s*(?:to|-)?\s*(\d+(?:,\d+)*)?\s*(?:BDT|Taka|TK)`. -/
def pat1 : List Char → List (List Char) :=
  mSeq mNum (mSeq mWS (mSeq mToDash (mSeq mWS (mSeq mNumOpt (mSeq mWS mCurr)))))

/-- Second salary pattern:
`BDT\s*(\d+(?:,\d+)*)\s*(?:to|-)?\s*(\d+(?:,\d+)*)?`. -/
def pat2 : List Char → List (List Char) :=
  mSeq (mLitCI ['b', 'd', 't'])
    (mSeq mWS (mSeq mNum (mSeq mWS (mSeq mToDash (mSeq mWS mNumOpt)))))

/-- Third salary pattern: `(\d+(?:,\d+)*)\s*(?:to|-)?\s*(\d+(?:,\d+)*)?`. -/
def pat3 : List Char → List (List Char) :=
  mSeq mNum (mSeq mWS (mSeq mToDash (mSeq mWS mNumOpt)))

/-- `re.search`: the pattern matches starting at some position. -/
def searchP (p : List Char → List (List Char)) : List Char → Bool
  | [] => !(p []).isEmpty
  | c :: t => !(p (c :: t)).isEmpty || searchP p t

/-- `WebScraper.parse_salary`. -/
def parse_salary : Option String → Option String
  | none => none
  | some s =>
    if s = "" then none
    else
      let c := clean_text s
      if searchP pat1 c.data || searchP pat2 c.data || searchP pat3 c.data then
        some c
      else if pyLower c.data = "negotiable".data then some "Negotiable"
      else some c

/-! ### Data model: `JobListing` (`main.py` lines 53-68) -/

/-- The `JobListing` dataclass; `salary` and `deadline` are Optional. -/
structure JobListing where
  title : String
  company : String
  location : String
  salary : Option String
  description : String
  requirements : String
  posted_date : String
  deadline : Option String
  job_type : String
  experience : String
  url : String
  source : String
  hash_id : String
deriving DecidableEq

/-! ### `DatabaseManager.insert_job` (`main.py` lines 170-209)

The table declares `hash_id VARCHAR(64) UNIQUE NOT NULL`; the insert is
`INSERT IGNORE` (MySQL) / `ON CONFLICT (hash_id) DO NOTHING`
(PostgreSQL), and the method returns `cursor.rowcount > 0`.  The
database is modelled as the list of stored rows; a conflicting
fingerprint leaves the table unchanged and reports `false`.
-/

/-- `DatabaseManager.insert_job`: insert-or-ignore keyed on `hash_id`,
returning whether a new row was stored, together with the new table. -/
def insert_job (db : List JobListing) (job : JobListing) :
    Bool × List JobListing :=
  if db.any (fun r => r.hash_id == job.hash_id) then (false, db)
  else (true, db ++ [job])

/-- Number of stored rows carrying a given fingerprint. -/
def countFp (db : List JobListing) (h : String) : Nat :=
  (db.filter (fun r => r.hash_id == h)).length

/-! ### `DatabaseManager.get_salary_analysis` (`main.py` lines 211-253)

```
SELECT location, COUNT(*) as job_count,
       AVG(CAST(REGEXP_REPLACE(salary, '[^0-9]', '') AS UNSIGNED)) as avg_salary
FROM job_listings
WHERE salary IS NOT NULL AND salary != ''
GROUP BY location
ORDER BY job_count DESC
LIMIT 10
```
Groups are produced in first-appearance order (`GROUP BY` order is not
specified by SQL) and sorted by a stable insertion sort on descending
job count, modelling `ORDER BY job_count DESC`; `CAST(· AS UNSIGNED)`
of the digit-stripped string is its numeric value (`''` casts to 0),
saturating at the 64-bit bound, and `AVG` is exact division in `ℚ`.
-/

/-- Stable insertion into a sorted list. -/
def insertLe {α : Type} (le : α → α → Bool) (x : α) : List α → List α
  | [] => [x]
  | y :: ys => if le x y then x :: y :: ys else y :: insertLe le x ys

/-- Stable insertion sort. -/
def insSort {α : Type} (le : α → α → Bool) : List α → List α
  | [] => []
  | x :: xs => insertLe le x (insSort le xs)

/-- The rows satisfying `WHERE salary IS NOT NULL AND salary != ''`. -/
def salaryRows (db : List JobListing) : List JobListing :=
  db.filter (fun r =>
    match r.salary with
    | none => false
    | some s => !(s == ""))

/-- Numeric value of a digit string read left to right. -/
def digitsToNat (l : List Char) : Nat :=
  l.foldl (fun n c => n * 10 + (c.toNat - 48)) 0

/-- `CAST(REGEXP_REPLACE(s, '[^0-9]', '') AS UNSIGNED)`. -/
def castUnsigned (s : String) : Nat :=
  min (digitsToNat (s.data.filter isDigitC)) (2 ^ 64 - 1)

/-- The numeric salary the aggregation query assigns to one row. -/
def rowSalaryNum (r : JobListing) : Nat :=
  castUnsigned (r.salary.getD "")

/-- Distinct `location` keys in first-appearance order. -/
def groupKeys (rows : List JobListing) : List String :=
  rows.foldl
    (fun acc r => if acc.contains r.location then acc else acc ++ [r.location]) []

/-- The rows of one location group. -/
def locGroup (rows : List JobListing) (k : String) : List JobListing :=
  rows.filter (fun r => r.location == k)

/-- One result row `(location, job_count, avg_salary)` of the query. -/
def locEntry (rows : List JobListing) (k : String) : String × Nat × Rat :=
  let g := locGroup rows k
  (k, g.length, (g.foldl (fun acc r => acc + (rowSalaryNum r : Rat)) 0) / (g.length : Rat))

/-- `ORDER BY job_count DESC` as a Bool relation. -/
def byCountDesc (a b : String × Nat × Rat) : Bool :=
  decide (b.2.1 ≤ a.2.1)

/-- `DatabaseManager.get_salary_analysis`, as the list of
`(location, job_count, avg_salary)` rows the query returns. -/
def get_salary_analysis (db : List JobListing) : List (String × Nat × Rat) :=
  let rows := salaryRows db
  (insSort byCountDesc ((groupKeys rows).map (locEntry rows))).take 10

/-! ### `BdjobsScraper` (`main.py` lines 347-435)

A page fragment (`div.job-list-item`) is modelled by the texts of the
sub-elements `extract_job_data` queries, and the anchor as
`Option (Option String)`: `find('a')` may be absent, and a found anchor
may lack an `href` attribute.  `urljoin` is Python stdlib, not
repository code; it is passed in as a parameter `uj`, except for its
documented behaviour on a falsy `url` argument (`urljoin(base, None)`
and `urljoin(base, '')` return `base`), which is inlined.  The scrape
environment is a function from (page iteration, url) to the optional parsed
page, mirroring `get_page_content`'s `None` on a fetch failure, and the
model additionally returns the trace of requested URLs.
-/

/-- `self.base_url` of `BdjobsScraper`. -/
def bdjobs_base_url : String := "https://jobs.bdjobs.com"

/-- `self.search_url` of `BdjobsScraper`. -/
def bdjobs_search_url : String := "https://jobs.bdjobs.com/jobsearch.asp"

/-- One `div.job-list-item` fragment as seen by
`BdjobsScraper.extract_job_data`. -/
structure BdElement where
  h3Text : Option String
  jobTitleAText : Option String
  companyDivText : Option String
  companySpanText : Option String
  locationDivText : Option String
  locationSpanText : Option String
  anchor : Option (Option String)
deriving DecidableEq

/-- `BdjobsScraper.extract_job_data`. -/
def bdjobs_extract_job_data (uj : String → String → String) (today : String)
    (e : BdElement) : Option JobListing :=
  let title := match e.h3Text <|> e.jobTitleAText with
    | some t => clean_text t
    | none => "N/A"
  let company := match e.companyDivText <|> e.companySpanText with
    | some t => clean_text t
    | none => "N/A"
  let location := match e.locationDivText <|> e.locationSpanText with
    | some t => clean_text t
    | none => "N/A"
  let job_url := match e.anchor with
    | none => ""
    | some none => bdjobs_base_url
    | some (some href) =>
      if href = "" then bdjobs_base_url else uj bdjobs_base_url href
  some
    { title := title, company := company, location := location,
      salary := some "N/A", description := "N/A", requirements := "N/A",
      posted_date := today, deadline := none, job_type := "Full-time",
      experience := "N/A", url := job_url, source := "Bdjobs",
      hash_id := generate_hash_id title company location }

/-- The `params` dict `BdjobsScraper.scrape_jobs` builds for a page
(`if keywords:` is false for `None` and for the empty list). -/
def bdjobs_params (page : Nat) (keywords : Option (List String)) :
    List (String × String) :=
  [("fc", "1"), ("pg", toString page)] ++
    (match keywords with
     | some (k :: ks) => [("q", String.intercalate " " (k :: ks))]
     | _ => [])

/-- The page loop of `BdjobsScraper.scrape_jobs`: `params` is built but
never passed on — every iteration fetches `self.search_url`. -/
def bdjobs_scrape_go (uj : String → String → String) (today : String)
    (env : Nat → String → Option (List BdElement))
    (keywords : Option (List String)) : Nat → Nat → List JobListing × List String
  | _, 0 => ([], [])
  | page, rem + 1 =>
    let _params := bdjobs_params page keywords
    let jobsHere := match env page bdjobs_search_url with
      | none => []
      | some elems => elems.filterMap (bdjobs_extract_job_data uj today)
    let rest := bdjobs_scrape_go uj today env keywords (page + 1) rem
    (jobsHere ++ rest.1, bdjobs_search_url :: rest.2)

/-- `BdjobsScraper.scrape_jobs` (default `max_pages=5` left explicit),
returning the scraped jobs together with the trace of fetched URLs. -/
def bdjobs_scrape_jobs (uj : String → String → String) (today : String)
    (env : Nat → String → Option (List BdElement))
    (keywords : Option (List String)) (max_pages : Nat) :
    List JobListing × List String :=
  bdjobs_scrape_go uj today env keywords 1 max_pages

/-! ### `JobscomScraper` (`main.py` lines 437-481) -/

/-- `self.search_url` of `JobscomScraper`. -/
def jobscom_search_url : String := "https://jobs.com.bd/jobs"

/-- One `div.job-item` fragment of Jobs.com.bd (opaque payload: the
extractor never inspects it). -/
structure JobscomElement where
  raw : String
deriving DecidableEq

/-- `JobscomScraper.extract_job_data`: the body is a bare `pass`, so
the method returns `None` on every input. -/
def jobscom_extract_job_data (_e : JobscomElement) : Option JobListing :=
  none

/-- The page loop of `JobscomScraper.scrape_jobs` (this one does embed
the page number in the URL). -/
def jobscom_scrape_go (env : Nat → String → Option (List JobscomElement)) :
    Nat → Nat → List JobListing × List String
  | _, 0 => ([], [])
  | page, rem + 1 =>
    let url := jobscom_search_url ++ "?page=" ++ toString page
    let jobsHere := match env page url with
      | none => []
      | some elems => elems.filterMap jobscom_extract_job_data
    let rest := jobscom_scrape_go env (page + 1) rem
    (jobsHere ++ rest.1, url :: rest.2)

/-- `JobscomScraper.scrape_jobs` (`keywords` is never read). -/
def jobscom_scrape_jobs (env : Nat → String → Option (List JobscomElement))
    (_keywords : Option (List String)) (max_pages : Nat) :
    List JobListing × List String :=
  jobscom_scrape_go env 1 max_pages

/-! ### `JobPortalScraper` orchestration (`main.py` lines 569-632)

`scrape_all_portals` waits for each submitted scraper future; a future
that raised is caught, logged and contributes nothing, a successful one
extends `all_jobs`.  Each extractor's outcome is therefore modelled as
`Except String (List JobListing)` (exception message or result list), in
the order `as_completed` yields them.  The collected jobs are then
persisted one by one, appending the newly inserted ones to
`self.new_jobs_today`.
-/

/-- The mutable scraper state: the database table plus
`self.new_jobs_today`. -/
structure ScraperState where
  db : List JobListing
  new_jobs_today : List JobListing
deriving DecidableEq

/-- The `as_completed` collection loop of `scrape_all_portals`. -/
def collect_results (outcomes : List (Except String (List JobListing))) :
    List JobListing :=
  outcomes.foldl
    (fun acc o =>
      match o with
      | .ok js => acc ++ js
      | .error _ => acc) []

/-- The persistence loop of `scrape_all_portals`: insert each job,
appending it to `new_jobs_today` when `insert_job` reports it new. -/
def persist_jobs (st : ScraperState) (jobs : List JobListing) : ScraperState :=
  jobs.foldl
    (fun st job =>
      let res := insert_job st.db job
      { db := res.2,
        new_jobs_today :=
          if res.1 then st.new_jobs_today ++ [job] else st.new_jobs_today })
    st

/-- `JobPortalScraper.scrape_all_portals`: returns `all_jobs` and the
updated state. -/
def scrape_all_portals (st : ScraperState)
    (outcomes : List (Except String (List JobListing))) :
    List JobListing × ScraperState :=
  let all_jobs := collect_results outcomes
  (all_jobs, persist_jobs st all_jobs)

/-- The records of `jobs` that an insertion pass against `db` reports
as newly inserted. -/
def newly_inserted (db : List JobListing) (jobs : List JobListing) :
    List JobListing :=
  (persist_jobs ⟨db, []⟩ jobs).new_jobs_today

/-! ### `EmailNotifier` / `run_daily_scrape` (`main.py` lines 483-519, 612-632) -/

/-- The `EmailNotifier` configuration read from the environment. -/
structure EmailConfig where
  email : Option String
  password : Option String
  recipients : List String
deriving DecidableEq

/-- `EmailNotifier.send_daily_report`: whether a message is actually
sent — `False` when credentials are missing (the body-building and SMTP
transport are external collaborators). -/
def send_daily_report (cfg : EmailConfig) : Bool :=
  cfg.email.isSome && cfg.password.isSome

/-- `JobPortalScraper.run_daily_scrape`: scrape and persist, compute
the salary analysis, invoke `send_daily_report` only when
`self.new_jobs_today` is nonempty, then reset `new_jobs_today`.
Returns the final state, whether the notifier was invoked, and whether
a message went out. -/
def run_daily_scrape (cfg : EmailConfig) (st : ScraperState)
    (outcomes : List (Except String (List JobListing))) :
    ScraperState × Bool × Bool :=
  let scraped := scrape_all_portals st outcomes
  let st1 := scraped.2
  let _analysis := get_salary_analysis st1.db
  let attempted := !st1.new_jobs_today.isEmpty
  let sent := if st1.new_jobs_today.isEmpty then false else send_daily_report cfg
  ({ st1 with new_jobs_today := [] }, attempted, sent)

/-! ## Helper lemmas and concrete witnesses -/

/-- A concrete record used by witnesses. -/
def sampleJob : JobListing :=
  { title := "Engineer", company := "Acme", location := "Dhaka",
    salary := some "30000", description := "d", requirements := "r",
    posted_date := "2026-10-12", deadline := none, job_type := "Full-time",
    experience := "2y", url := "https://jobs.bdjobs.com/x", source := "Bdjobs",
    hash_id := "abc123" }

/-- A stored row with a given location and salary, for the aggregation
example. -/
def exampleRow (loc sal : String) : JobListing :=
  { title := "T" ++ sal, company := "C", location := loc, salary := some sal,
    description := "", requirements := "", posted_date := "2026-10-12",
    deadline := none, job_type := "Full-time", experience := "",
    url := "", source := "Bdjobs", hash_id := "h" ++ loc ++ sal }

/-- The stored records of the spec's aggregation example:
`{(Dhaka, "30000"), (Dhaka, "50000"), (Chittagong, "20000")}`. -/
def exampleDb : List JobListing :=
  [exampleRow "Dhaka" "30000", exampleRow "Dhaka" "50000",
   exampleRow "Chittagong" "20000"]

/-- Hex rendering doubles the length. -/
theorem hexBytes_length (l : List Nat) : (hexBytes l).length = 2 * l.length := by
  induction l with
  | nil => rfl
  | cons b t ih =>
    have h : hexBytes (b :: t) = hexDigit (b / 16 % 16) :: hexDigit (b % 16) :: hexBytes t := rfl
    rw [h]
    simp [List.length_cons, ih]
    omega

/-- An MD5 digest is 16 bytes. -/
theorem md5Bytes_length (msg : List Nat) : (md5Bytes msg).length = 16 := by
  simp [md5Bytes, le4]

/-- An MD5 hex digest is 32 characters (128 bits). -/
theorem md5hex_length (s : String) : (md5hex s).length = 32 := by
  show (String.mk (hexBytes (md5Bytes (utf8Bytes s)))).length = 32
  rw [String.length_mk, hexBytes_length, md5Bytes_length]

/-- The collection loop keeps exactly the successful outcomes' lists. -/
theorem collect_results_eq (outcomes : List (Except String (List JobListing))) :
    collect_results outcomes = (outcomes.filterMap Except.toOption).flatten := by
  have key : ∀ (os : List (Except String (List JobListing))) (acc : List JobListing),
      os.foldl
        (fun acc o =>
          match o with
          | .ok js => acc ++ js
          | .error _ => acc) acc =
        acc ++ (os.filterMap Except.toOption).flatten := by
    intro os
    induction os with
    | nil => intro acc; simp
    | cons o t ih =>
      intro acc
      cases o with
      | ok js => simp [List.filterMap_cons, Except.toOption, ih]
      | error e => simp [List.filterMap_cons, Except.toOption, ih]
  simpa using key outcomes []

/-- The Bdjobs page loop ignores `keywords` and always requests
`self.search_url`. -/
theorem bdjobs_go_spec (uj : String → String → String) (today : String)
    (env : Nat → String → Option (List BdElement))
    (kw kw' : Option (List String)) :
    ∀ (mp page : Nat),
      (bdjobs_scrape_go uj today env kw page mp).1 =
        (bdjobs_scrape_go uj today env kw' page mp).1 ∧
      (bdjobs_scrape_go uj today env kw page mp).2 =
        List.replicate mp bdjobs_search_url := by
  intro mp
  induction mp with
  | zero => intro page; exact ⟨rfl, rfl⟩
  | succ n ih =>
    intro page
    constructor
    · simp only [bdjobs_scrape_go]
      rw [(ih (page + 1)).1]
    · simp only [bdjobs_scrape_go, List.replicate_succ]
      rw [(ih (page + 1)).2]

/-- The Jobs.com.bd page loop accumulates nothing. -/
theorem jobscom_go_nil (env : Nat → String → Option (List JobscomElement)) :
    ∀ (mp page : Nat), (jobscom_scrape_go env page mp).1 = [] := by
  intro mp
  induction mp with
  | zero => intro page; rfl
  | succ n ih =>
    intro page
    simp only [jobscom_scrape_go]
    rw [ih (page + 1)]
    cases env page (jobscom_search_url ++ "?page=" ++ toString page) with
    | none => rfl
    | some elems => simp [jobscom_extract_job_data]

/-- The tail of a list with no trailing whitespace has no trailing
whitespace. -/
theorem noTrailB_cons (c : Char) (t : List Char) (h : noTrailB (c :: t) = true) :
    noTrailB t = true := by
  cases t with
  | nil => rfl
  | cons d t' =>
    show ((d :: t').getLast?.all fun x => !isPS x) = true
    have h' : ((c :: d :: t').getLast?.all fun x => !isPS x) = true := h
    rwa [List.getLast?_cons_cons] at h'

/-- A list with no trailing whitespace that starts with whitespace has
a nonempty tail. -/
theorem noTrailB_PS_ne_nil (c : Char) (t : List Char) (hc : isPS c = true)
    (h : noTrailB (c :: t) = true) : t ≠ [] := by
  intro ht
  subst ht
  simp [noTrailB, hc] at h

/-- Collapsing whitespace runs in a list with no trailing whitespace
yields the cleaned-text invariant. -/
theorem collapse_goodF : ∀ (l : List Char) (fl : Bool), noTrailB l = true →
    (fl = true → l ≠ []) → goodF fl (collapseF fl l) = true := by
  intro l
  induction l with
  | nil =>
    intro fl _ hfl
    cases fl with
    | false => rfl
    | true => exact absurd rfl (hfl rfl)
  | cons c t ih =>
    intro fl h hfl
    by_cases hc : isPS c = true
    · have hne : t ≠ [] := noTrailB_PS_ne_nil c t hc h
      have hnt : noTrailB t = true := noTrailB_cons c t h
      cases fl with
      | true =>
        have hstep : collapseF true (c :: t) = collapseF true t := by
          simp [collapseF, hc]
        rw [hstep]
        exact ih true hnt (fun _ => hne)
      | false =>
        have hstep : collapseF false (c :: t) = ' ' :: collapseF true t := by
          simp [collapseF, hc]
        rw [hstep]
        have hps : isPS ' ' = true := by decide
        have hrec := ih true hnt (fun _ => hne)
        simp [goodF, hps, hrec]
    · have hcf : isPS c = false := by simpa using hc
      have hnt : noTrailB t = true := noTrailB_cons c t h
      have hstep : collapseF fl (c :: t) = c :: collapseF false t := by
        cases fl <;> simp [collapseF, hcf]
      rw [hstep]
      have hrec := ih false hnt (fun hh => nomatch hh)
      cases fl with
      | true => simp [goodF, hcf, hrec]
      | false => simp [goodF, hcf, hrec]

/-- Unfolding equation of `goodF` after a collapsed space on a cons cell. -/
theorem goodF_true_cons (c : Char) (t : List Char) :
    goodF true (c :: t) = (!isPS c && goodF false t) := rfl

/-- Unfolding equation of `goodF` in word state on a cons cell. -/
theorem goodF_false_cons (c : Char) (t : List Char) :
    goodF false (c :: t) =
      if isPS c = true then (decide (c = ' ') && goodF true t)
      else goodF false t := rfl

/-- Non-nil lists satisfying the invariant have no trailing whitespace. -/
theorem goodF_noTrail : ∀ (l : List Char) (fl : Bool), goodF fl l = true →
    l ≠ [] → noTrailB l = true := by
  intro l
  induction l with
  | nil => intro fl _ h; exact absurd rfl h
  | cons c t ih =>
    intro fl hg _
    cases t with
    | nil =>
      cases fl with
      | true =>
        rw [goodF_true_cons, Bool.and_eq_true] at hg
        simpa [noTrailB] using hg.1
      | false =>
        rw [goodF_false_cons] at hg
        by_cases hc : isPS c = true
        · rw [if_pos hc, Bool.and_eq_true] at hg
          exact absurd hg.2 (by simp [goodF])
        · simp [noTrailB, hc]
    | cons d t' =>
      have hnt : noTrailB (d :: t') = true := by
        cases fl with
        | true =>
          rw [goodF_true_cons, Bool.and_eq_true] at hg
          exact ih false hg.2 (by simp)
        | false =>
          rw [goodF_false_cons] at hg
          by_cases hc : isPS c = true
          · rw [if_pos hc, Bool.and_eq_true] at hg
            exact ih true hg.2 (by simp)
          · rw [if_neg hc] at hg
            exact ih false hg (by simp)
      show ((c :: d :: t').getLast?.all fun x => !isPS x) = true
      rw [List.getLast?_cons_cons]
      exact hnt

/-- The head of `dropWhile isPS` is not whitespace. -/
theorem dropWhile_head_not : ∀ (l : List Char) (c : Char),
    (l.dropWhile isPS).head? = some c → isPS c = false := by
  intro l
  induction l with
  | nil => intro c h; simp [List.dropWhile] at h
  | cons d t ih =>
    intro c h
    by_cases hd : isPS d = true
    · rw [List.dropWhile_cons_of_pos hd] at h
      exact ih c h
    · have hdf : isPS d = false := by simpa using hd
      rw [List.dropWhile_cons_of_neg (by simp [hdf])] at h
      simp at h
      rw [← h]
      exact hdf

/-- `dropTrail l` is an initial segment of `l`. -/
theorem dropTrail_prefix (l : List Char) : ∃ m, dropTrail l ++ m = l := by
  obtain ⟨p, hp⟩ := List.dropWhile_suffix (l := l.reverse) (p := isPS)
  refine ⟨p.reverse, ?_⟩
  show (l.reverse.dropWhile isPS).reverse ++ p.reverse = l
  rw [← List.reverse_append, hp, List.reverse_reverse]

/-- The head of stripped text is not whitespace. -/
theorem stripChars_head : ∀ (l : List Char) (c : Char),
    (stripChars l).head? = some c → isPS c = false := by
  intro l c h
  obtain ⟨m, hm⟩ := dropTrail_prefix (l.dropWhile isPS)
  cases e : stripChars l with
  | nil => rw [e] at h; simp at h
  | cons c' t' =>
    rw [e] at h
    simp at h
    have e' : dropTrail (l.dropWhile isPS) = c' :: t' := e
    rw [e'] at hm
    have hh : (l.dropWhile isPS).head? = some c' := by
      rw [← hm]; rfl
    rw [← h]
    exact dropWhile_head_not l c' hh

/-- Stripped text has no trailing whitespace. -/
theorem stripChars_noTrail (l : List Char) : noTrailB (stripChars l) = true := by
  have hg : (stripChars l).getLast? = ((l.dropWhile isPS).reverse.dropWhile isPS).head? := by
    show (((l.dropWhile isPS).reverse.dropWhile isPS).reverse).getLast? = _
    exact List.getLast?_reverse _
  show ((stripChars l).getLast?.all fun c => !isPS c) = true
  rw [hg]
  cases e : ((l.dropWhile isPS).reverse.dropWhile isPS).head? with
  | none => rfl
  | some c =>
    have hns := dropWhile_head_not (l.dropWhile isPS).reverse c e
    simp [Option.all, hns]

/-- The core invariant: collapsing after stripping yields `good` text. -/
theorem good_clean (l : List Char) : good (collapseF false (stripChars l)) = true := by
  cases e : stripChars l with
  | nil => rfl
  | cons c t =>
    have hch : isPS c = false := by
      apply stripChars_head l c
      rw [e]; rfl
    have hnt : noTrailB (c :: t) = true := by rw [← e]; exact stripChars_noTrail l
    have hstep : collapseF false (c :: t) = c :: collapseF false t := by
      simp [collapseF, hch]
    rw [hstep]
    show (!isPS c && goodF false (collapseF false t)) = true
    rw [hch]
    simp [collapse_goodF t false (noTrailB_cons c t hnt) (fun hh => nomatch hh)]

/-- Dropping leading whitespace is the identity when the head is not
whitespace. -/
theorem head_dropWhile_id : ∀ l : List Char, headOkB l = true →
    l.dropWhile isPS = l := by
  intro l h
  cases l with
  | nil => rfl
  | cons c t =>
    have hc : isPS c = false := by simpa [headOkB] using h
    rw [List.dropWhile_cons_of_neg (by simp [hc])]

/-- `good` text has no leading whitespace to drop. -/
theorem good_dropWhile (l : List Char) (h : good l = true) :
    l.dropWhile isPS = l := by
  cases l with
  | nil => rfl
  | cons c t =>
    simp [good] at h
    rw [List.dropWhile_cons_of_neg (by simp [h.1])]

/-- `good` text has no trailing whitespace. -/
theorem good_noTrailB (l : List Char) (h : good l = true) : noTrailB l = true := by
  cases l with
  | nil => rfl
  | cons c t =>
    cases t with
    | nil =>
      simp [good] at h
      simp [noTrailB, h.1]
    | cons d t' =>
      simp [good] at h
      have hnt := goodF_noTrail (d :: t') false h.2 (by simp)
      show ((c :: d :: t').getLast?.all fun x => !isPS x) = true
      rw [List.getLast?_cons_cons]
      exact hnt

/-- Dropping trailing whitespace is the identity on `noTrailB` text. -/
theorem noTrail_dropTrail_id (l : List Char) (h : noTrailB l = true) :
    dropTrail l = l := by
  have hrev : l.reverse.dropWhile isPS = l.reverse := by
    apply head_dropWhile_id
    show (l.reverse.head?.all fun c => !isPS c) = true
    rw [List.head?_reverse]
    exact h
  show (l.reverse.dropWhile isPS).reverse = l
  rw [hrev, List.reverse_reverse]

/-- Collapsing is the identity on text satisfying the invariant. -/
theorem goodF_collapse_id : ∀ (l : List Char) (fl : Bool), goodF fl l = true →
    collapseF fl l = l := by
  intro l
  induction l with
  | nil => intro fl _; rfl
  | cons c t ih =>
    intro fl hg
    cases fl with
    | true =>
      simp [goodF] at hg
      simp [collapseF, hg.1, ih false hg.2]
    | false =>
      by_cases hc : isPS c = true
      · simp [goodF, hc] at hg
        have hstep : collapseF false (c :: t) = ' ' :: collapseF true t := by
          simp [collapseF, hc]
        rw [hstep, ih true hg.2, hg.1]
      · simp [goodF, hc] at hg
        simp [collapseF, hc, ih false hg]

/-- Collapsing is the identity on `good` text. -/
theorem good_collapse_id (l : List Char) (h : good l = true) :
    collapseF false l = l := by
  cases l with
  | nil => rfl
  | cons c t =>
    simp [good] at h
    simp [collapseF, h.1, goodF_collapse_id t false h.2]

/-- In text satisfying the invariant, every whitespace character is a
plain space. -/
theorem goodF_all_space : ∀ (l : List Char) (fl : Bool), goodF fl l = true →
    ∀ c ∈ l, isPS c = true → c = ' ' := by
  intro l
  induction l with
  | nil => intro fl _ c hc; simp at hc
  | cons d t ih =>
    intro fl hg c hc hps
    rcases List.mem_cons.mp hc with rfl | hct
    · cases fl with
      | true =>
        simp [goodF] at hg
        rw [hg.1] at hps
        exact absurd hps (by simp)
      | false =>
        by_cases hd : isPS c = true
        · simp [goodF, hd] at hg
          exact hg.1
        · exact absurd hps hd
    · cases fl with
      | true =>
        simp [goodF] at hg
        exact ih false hg.2 c hct hps
      | false =>
        by_cases hd : isPS d = true
        · simp [goodF, hd] at hg
          exact ih true hg.2 c hct hps
        · simp [goodF, hd] at hg
          exact ih false hg c hct hps

/-- In `good` text, every whitespace character is a plain space. -/
theorem good_all_space (l : List Char) (h : good l = true) :
    ∀ c ∈ l, isPS c = true → c = ' ' := by
  cases l with
  | nil => intro c hc; simp at hc
  | cons d t =>
    intro c hc hps
    simp [good] at h
    rcases List.mem_cons.mp hc with rfl | hct
    · rw [h.1] at hps
      exact absurd hps (by simp)
    · exact goodF_all_space t false h.2 c hct hps

/-- Right after a collapsed space, the next character is not whitespace. -/
theorem goodF_head_after_space (l : List Char) (h : goodF true l = true) :
    headOkB l = true := by
  cases l with
  | nil => simp [goodF] at h
  | cons c t =>
    simp [goodF] at h
    simp [headOkB, h.1]

/-- Text satisfying the invariant has no two adjacent whitespace
characters. -/
theorem goodF_chain : ∀ (l : List Char) (fl : Bool), goodF fl l = true →
    l.Chain' (fun a b => ¬(isPS a = true ∧ isPS b = true)) := by
  intro l
  induction l with
  | nil => intro fl _; exact List.chain'_nil
  | cons c t ih =>
    intro fl hg
    rw [List.chain'_cons']
    cases fl with
    | true =>
      simp [goodF] at hg
      refine ⟨?_, ih false hg.2⟩
      intro y _ hcon
      rw [hg.1] at hcon
      exact absurd hcon.1 (by simp)
    | false =>
      by_cases hc : isPS c = true
      · simp [goodF, hc] at hg
        refine ⟨?_, ih true hg.2⟩
        intro y hy hcon
        have hh := goodF_head_after_space t hg.2
        cases t with
        | nil => simp at hy
        | cons d t' =>
          simp at hy
          subst hy
          have hdf : isPS d = false := by simpa [headOkB] using hh
          exact absurd hcon.2 (by simp [hdf])
      · simp [goodF, hc] at hg
        refine ⟨?_, ih false hg⟩
        intro y _ hcon
        exact absurd hcon.1 hc

/-- `good` text has no two adjacent whitespace characters. -/
theorem good_chain (l : List Char) (h : good l = true) :
    l.Chain' (fun a b => ¬(isPS a = true ∧ isPS b = true)) := by
  cases l with
  | nil => exact List.chain'_nil
  | cons c t =>
    simp [good] at h
    rw [List.chain'_cons']
    refine ⟨?_, goodF_chain t false h.2⟩
    intro y _ hcon
    rw [h.1] at hcon
    exact absurd hcon.1 (by simp)

/-- `good` text does not start with whitespace. -/
theorem good_head (l : List Char) (h : good l = true) : headOkB l = true := by
  cases l with
  | nil => rfl
  | cons c t =>
    simp [good] at h
    simp [headOkB, h.1]

/-- The output of `clean_text` satisfies the invariant. -/
theorem clean_text_good (s : String) : good (clean_text s).data = true := by
  unfold clean_text
  by_cases hs : s = ""
  · rw [if_pos hs]; rfl
  · rw [if_neg hs]
    exact good_clean s.data

/-- `clean_text` is idempotent. -/
theorem clean_text_idem_aux (s : String) :
    clean_text (clean_text s) = clean_text s := by
  by_cases hs : s = ""
  · rw [hs]; rfl
  · have hgood : good (clean_text s).data = true := clean_text_good s
    set o := clean_text s with ho
    by_cases hoe : o = ""
    · rw [hoe]; rfl
    · have h1 : stripChars o.data = o.data := by
        show dropTrail (o.data.dropWhile isPS) = o.data
        rw [good_dropWhile o.data hgood]
        exact noTrail_dropTrail_id o.data (good_noTrailB o.data hgood)
      have h2 : collapseF false o.data = o.data := good_collapse_id o.data hgood
      show (if o = "" then "" else String.mk (collapseF false (stripChars o.data))) = o
      rw [if_neg hoe, h1, h2]

/-- Lowercasing fixes decimal digits. -/
theorem lowerAscii_digit (c : Char) (h : isDigitC c = true) : lowerAscii c = c := by
  have h' : 48 ≤ c.toNat ∧ c.toNat ≤ 57 := by simpa [isDigitC] using h
  have hcond : (65 ≤ c.toNat && c.toNat ≤ 90) = false := by
    simp only [Bool.and_eq_false_iff, decide_eq_false_iff_not, not_le]
    omega
  simp [lowerAscii, hcond]

/-- A string whose lowercase form is `negotiable` contains no digit. -/
theorem noDigit_of_lower_negotiable (l : List Char)
    (h : pyLower l = "negotiable".data) : ∀ c ∈ l, isDigitC c = false := by
  intro c hc
  by_cases hd : isDigitC c = true
  · exfalso
    have hmem : lowerAscii c ∈ pyLower l := List.mem_map_of_mem lowerAscii hc
    rw [lowerAscii_digit c hd, h] at hmem
    have hlit : "negotiable".data =
        ['n', 'e', 'g', 'o', 't', 'i', 'a', 'b', 'l', 'e'] := rfl
    rw [hlit] at hmem
    simp only [List.mem_cons, List.not_mem_nil, or_false] at hmem
    rcases hmem with rfl | rfl | rfl | rfl | rfl | rfl | rfl | rfl | rfl | rfl <;>
      exact absurd hd (by decide)
  · simpa using hd

/-- Every remainder of `\s*` is a suffix of its input. -/
theorem mWS_suffix : ∀ (l r : List Char), r ∈ mWS l → r <:+ l := by
  intro l
  induction l with
  | nil =>
    intro r hr
    simp [mWS] at hr
    rw [hr]
  | cons c t ih =>
    intro r hr
    rw [show mWS (c :: t) = (c :: t) :: (if isPS c then mWS t else []) from rfl] at hr
    rcases List.mem_cons.mp hr with rfl | hr2
    · exact List.suffix_refl _
    · by_cases hps : isPS c = true
      · rw [if_pos hps] at hr2
        exact (ih r hr2).trans (List.suffix_cons c t)
      · rw [if_neg hps] at hr2
        simp at hr2

/-- Every remainder of a case-insensitive literal is a suffix of its
input. -/
theorem mLitCI_suffix : ∀ (w l r : List Char), r ∈ mLitCI w l → r <:+ l := by
  intro w
  induction w with
  | nil =>
    intro l r hr
    simp [mLitCI] at hr
    rw [hr]
  | cons wc ws ih =>
    intro l r hr
    cases l with
    | nil => simp [mLitCI] at hr
    | cons c t =>
      rw [show mLitCI (wc :: ws) (c :: t) =
        (if lowerAscii c = wc then mLitCI ws t else []) from rfl] at hr
      by_cases he : lowerAscii c = wc
      · rw [if_pos he] at hr
        exact (ih t r hr).trans (List.suffix_cons c t)
      · rw [if_neg he] at hr
        simp at hr

/-- `flatMap` of an everywhere-empty function is empty. -/
theorem flatMap_eq_nil_of {α β : Type} (l : List α) (f : α → List β)
    (h : ∀ x ∈ l, f x = []) : l.flatMap f = [] := by
  induction l with
  | nil => rfl
  | cons a t ih =>
    rw [List.flatMap_cons, h a (List.mem_cons_self a t),
      ih (fun x hx => h x (List.mem_cons_of_mem a hx))]
    rfl

/-- `\d+(?:,\d+)*` cannot start matching a digit-free string. -/
theorem mNum_eq_nil (l : List Char) (h : ∀ c ∈ l, isDigitC c = false) :
    mNum l = [] := by
  cases l with
  | nil => rfl
  | cons c t =>
    have hc := h c (List.mem_cons_self c t)
    simp [mNum, hc]

/-- `re.search` fails when the pattern matches at no start position. -/
theorem searchP_eq_false (p : List Char → List (List Char)) :
    ∀ l, (∀ u, u <:+ l → p u = []) → searchP p l = false := by
  intro l
  induction l with
  | nil =>
    intro h
    have h0 := h [] (List.suffix_refl [])
    simp [searchP, h0]
  | cons c t ih =>
    intro h
    have h1 := h (c :: t) (List.suffix_refl _)
    have h2 : searchP p t = false :=
      ih (fun u hu => h u (hu.trans (List.suffix_cons c t)))
    simp [searchP, h1, h2]

/-- None of the three salary patterns can be found in a digit-free
string: each requires at least one digit. -/
theorem searches_false_no_digit (l : List Char)
    (h : ∀ c ∈ l, isDigitC c = false) :
    searchP pat1 l = false ∧ searchP pat2 l = false ∧ searchP pat3 l = false := by
  have hsub : ∀ u, u <:+ l → ∀ c ∈ u, isDigitC c = false :=
    fun u hu c hc => h c (hu.subset hc)
  refine ⟨searchP_eq_false _ l ?_, searchP_eq_false _ l ?_,
    searchP_eq_false _ l ?_⟩
  · intro u hu
    show (mNum u).flatMap _ = []
    rw [mNum_eq_nil u (hsub u hu)]
    rfl
  · intro u hu
    show (mLitCI ['b', 'd', 't'] u).flatMap _ = []
    apply flatMap_eq_nil_of
    intro r1 hr1
    show (mWS r1).flatMap _ = []
    apply flatMap_eq_nil_of
    intro r2 hr2
    show (mNum r2).flatMap _ = []
    have hsuf : r2 <:+ l :=
      ((mWS_suffix r1 r2 hr2).trans (mLitCI_suffix ['b', 'd', 't'] u r1 hr1)).trans hu
    rw [mNum_eq_nil r2 (hsub r2 hsuf)]
    rfl
  · intro u hu
    show (mNum u).flatMap _ = []
    rw [mNum_eq_nil u (hsub u hu)]
    rfl

/-- Membership after stable insertion. -/
theorem mem_insertLe {α : Type} (le : α → α → Bool) (x : α) :
    ∀ (l : List α) (y : α), y ∈ insertLe le x l ↔ y = x ∨ y ∈ l := by
  intro l
  induction l with
  | nil => intro y; simp [insertLe]
  | cons z t ih =>
    intro y
    rw [show insertLe le x (z :: t) =
      if le x z then x :: z :: t else z :: insertLe le x t from rfl]
    by_cases h : le x z = true
    · rw [if_pos h]
      simp [List.mem_cons]
    · rw [if_neg h]
      simp [List.mem_cons, ih]
      tauto

/-- Stable insertion preserves descending job-count order. -/
theorem insertLe_sorted (x : String × Nat × Rat) :
    ∀ l : List (String × Nat × Rat),
      l.Pairwise (fun a b => b.2.1 ≤ a.2.1) →
      (insertLe byCountDesc x l).Pairwise (fun a b => b.2.1 ≤ a.2.1) := by
  intro l
  induction l with
  | nil => intro _; simp [insertLe]
  | cons z t ih =>
    intro hl
    rw [List.pairwise_cons] at hl
    rw [show insertLe byCountDesc x (z :: t) =
      if byCountDesc x z then x :: z :: t else z :: insertLe byCountDesc x t from rfl]
    by_cases h : byCountDesc x z = true
    · rw [if_pos h]
      have hxz : z.2.1 ≤ x.2.1 := by simpa [byCountDesc] using h
      rw [List.pairwise_cons]
      refine ⟨?_, List.pairwise_cons.mpr ⟨hl.1, hl.2⟩⟩
      intro b hb
      rcases List.mem_cons.mp hb with rfl | hbt
      · exact hxz
      · exact le_trans (hl.1 b hbt) hxz
    · rw [if_neg h]
      have hzx : x.2.1 ≤ z.2.1 := by
        simp [byCountDesc] at h
        omega
      rw [List.pairwise_cons]
      refine ⟨?_, ih hl.2⟩
      intro b hb
      rcases (mem_insertLe byCountDesc x t b).mp hb with rfl | hbt
      · exact hzx
      · exact hl.1 b hbt

/-- Insertion sort produces descending job-count order. -/
theorem insSort_sorted :
    ∀ l : List (String × Nat × Rat),
      (insSort byCountDesc l).Pairwise (fun a b => b.2.1 ≤ a.2.1) := by
  intro l
  induction l with
  | nil => simp [insSort]
  | cons x t ih => exact insertLe_sorted x (insSort byCountDesc t) ih

/-- Insertion sort is a permutation for membership purposes. -/
theorem mem_insSort {α : Type} (le : α → α → Bool) :
    ∀ (l : List α) (y : α), y ∈ insSort le l ↔ y ∈ l := by
  intro l
  induction l with
  | nil => intro y; simp [insSort]
  | cons x t ih =>
    intro y
    rw [show insSort le (x :: t) = insertLe le x (insSort le t) from rfl,
      mem_insertLe, ih]
    simp [List.mem_cons]

/-- Every key produced by the grouping fold names the location of at
least one row. -/
theorem mem_groupKeys_exists :
    ∀ (rows : List JobListing) (acc : List String) (k : String),
      k ∈ rows.foldl
        (fun acc r =>
          if acc.contains r.location then acc else acc ++ [r.location]) acc →
      k ∈ acc ∨ ∃ r ∈ rows, r.location = k := by
  intro rows
  induction rows with
  | nil => intro acc k h; exact Or.inl h
  | cons r t ih =>
    intro acc k h
    rw [List.foldl_cons] at h
    rcases ih _ k h with hacc | ⟨r', hr', hloc⟩
    · by_cases hc : acc.contains r.location = true
      · rw [if_pos hc] at hacc
        exact Or.inl hacc
      · rw [if_neg hc] at hacc
        rcases List.mem_append.mp hacc with h1 | h2
        · exact Or.inl h1
        · simp at h2
          exact Or.inr ⟨r, List.mem_cons_self r t, h2.symm⟩
    · exact Or.inr ⟨r', List.mem_cons_of_mem r hr', hloc⟩

/-- A location that occurs among the rows has a nonempty group. -/
theorem locGroup_pos (rows : List JobListing) (k : String)
    (h : ∃ r ∈ rows, r.location = k) : 0 < (locGroup rows k).length := by
  obtain ⟨r, hr, hl⟩ := h
  have hmem : r ∈ locGroup rows k := List.mem_filter.mpr ⟨hr, by simp [hl]⟩
  exact List.length_pos.mpr (List.ne_nil_of_mem hmem)

/-! ## Claims -/

/-- C1: Idempotent ingestion.  For every `JobListing` whose fingerprint
is not yet stored, the first `insert_job` returns `true`; calling it a
second time with the same record returns `false`, leaves the table
unchanged, and exactly one stored row carries that fingerprint. -/
theorem insert_job_idempotent (db : List JobListing) (job : JobListing)
    (h : countFp db job.hash_id = 0) :
    (insert_job db job).1 = true ∧
    (insert_job (insert_job db job).2 job).1 = false ∧
    (insert_job (insert_job db job).2 job).2 = (insert_job db job).2 ∧
    countFp (insert_job (insert_job db job).2 job).2 job.hash_id = 1 := by
  unfold countFp at h
  have hfil : db.filter (fun r => r.hash_id == job.hash_id) = [] :=
    List.length_eq_zero.mp h
  have hany : db.any (fun r => r.hash_id == job.hash_id) = false := by
    rw [List.any_eq_false]
    intro x hx hpx
    have hmem : x ∈ db.filter (fun r => r.hash_id == job.hash_id) :=
      List.mem_filter.mpr ⟨hx, hpx⟩
    rw [hfil] at hmem
    exact absurd hmem (List.not_mem_nil x)
  refine ⟨?_, ?_, ?_, ?_⟩ <;>
    simp [insert_job, hany, countFp, List.filter_append, hfil]

/-- Witness for C1 at a concrete record and the empty table. -/
theorem insert_job_idempotent_w :
    countFp [] sampleJob.hash_id = 0 ∧
    ((insert_job [] sampleJob).1 = true ∧
     (insert_job (insert_job [] sampleJob).2 sampleJob).1 = false ∧
     (insert_job (insert_job [] sampleJob).2 sampleJob).2 =
       (insert_job [] sampleJob).2 ∧
     countFp (insert_job (insert_job [] sampleJob).2 sampleJob).2
       sampleJob.hash_id = 1) :=
  ⟨rfl, insert_job_idempotent [] sampleJob rfl⟩

/-- C2: Fingerprint determinism.  `generate_hash_id` is a pure function
of the `(title, company, location)` triple — equal inputs always yield
equal output — and its output is a 128-bit digest (32 hex characters). -/
theorem generate_hash_id_deterministic (t c l t' c' l' : String)
    (h1 : t = t') (h2 : c = c') (h3 : l = l') :
    generate_hash_id t c l = generate_hash_id t' c' l' ∧
    (generate_hash_id t c l).length = 32 := by
  subst h1; subst h2; subst h3
  exact ⟨rfl, md5hex_length _⟩

/-- Witness for C2 at a concrete triple. -/
theorem generate_hash_id_deterministic_w :
    ("Engineer" : String) = "Engineer" ∧
    (generate_hash_id "Engineer" "Acme" "Dhaka" =
       generate_hash_id "Engineer" "Acme" "Dhaka" ∧
     (generate_hash_id "Engineer" "Acme" "Dhaka").length = 32) :=
  ⟨rfl, generate_hash_id_deterministic "Engineer" "Acme" "Dhaka"
    "Engineer" "Acme" "Dhaka" rfl rfl rfl⟩

/-- C3 counterexample: the two distinct triples `("ab", "c", "d")` and
`("a", "bc", "d")` deterministically receive the same fingerprint,
because the three fields are concatenated with no separator before
hashing. -/
theorem generate_hash_id_distinctness_cex :
    generate_hash_id "ab" "c" "d" = generate_hash_id "a" "bc" "d" ∧
    ("ab", "c", "d") ≠ (("a", "bc", "d") : String × String × String) := by
  constructor
  · show md5hex ("ab" ++ "c" ++ "d") = md5hex ("a" ++ "bc" ++ "d")
    exact congrArg md5hex (by decide)
  · decide

/-- C3 amended: the fingerprint depends only on the separator-free
concatenation `title ++ company ++ location`, so any two triples with
equal concatenation — including distinct ones — receive the same
fingerprint; distinctness can hold at most for triples whose
concatenations differ, and there only heuristically. -/
theorem generate_hash_id_concat_determined (t c l t' c' l' : String)
    (h : t ++ c ++ l = t' ++ c' ++ l') :
    generate_hash_id t c l = generate_hash_id t' c' l' :=
  congrArg md5hex h

/-- Witness for the amended C3 at the colliding pair of triples. -/
theorem generate_hash_id_concat_determined_w :
    ("ab" : String) ++ "c" ++ "d" = "a" ++ "bc" ++ "d" ∧
    generate_hash_id "ab" "c" "d" = generate_hash_id "a" "bc" "d" :=
  ⟨by decide,
   generate_hash_id_concat_determined "ab" "c" "d" "a" "bc" "d" (by decide)⟩

/-- C4: Fault isolation.  For every mix of extractor outcomes —
exceptions and successes in any order — the orchestrator's collected
result is exactly the concatenation (union) of the successful
extractors' candidate lists; a raising extractor contributes nothing
and, the model being a total function, no exception propagates. -/
theorem scrape_all_portals_fault_isolation (st : ScraperState)
    (outcomes : List (Except String (List JobListing))) :
    (scrape_all_portals st outcomes).1 =
      (outcomes.filterMap Except.toOption).flatten :=
  collect_results_eq outcomes

/-- C7: Aggregation correctness.  For every stored table,
`get_salary_analysis` returns at most 10 groups, ordered by job count
descending; each returned group's count is the number of rows with that
location among the rows with non-null non-empty salary, its count is
positive, and its average is the exact mean of the digit-stripped
salary values of that group; and on the example table
`{(Dhaka, "30000"), (Dhaka, "50000"), (Chittagong, "20000")}` it
returns Dhaka with count 2 and average 40000 before Chittagong with
count 1 and average 20000. -/
theorem get_salary_analysis_correct :
    (∀ db, (get_salary_analysis db).length ≤ 10) ∧
    (∀ db, (get_salary_analysis db).Pairwise (fun a b => b.2.1 ≤ a.2.1)) ∧
    (∀ db, ∀ e ∈ get_salary_analysis db,
      e.2.1 = (locGroup (salaryRows db) e.1).length ∧ 0 < e.2.1 ∧
      e.2.2 = ((locGroup (salaryRows db) e.1).foldl
          (fun acc r => acc + (rowSalaryNum r : Rat)) 0) /
        ((locGroup (salaryRows db) e.1).length : Rat)) ∧
    get_salary_analysis exampleDb =
      [("Dhaka", 2, (40000 : Rat)), ("Chittagong", 1, (20000 : Rat))] := by
  refine ⟨?_, ?_, ?_, ?_⟩
  · intro db
    exact List.length_take_le 10 _
  · intro db
    exact List.Pairwise.sublist (List.take_sublist 10 _)
      (insSort_sorted ((groupKeys (salaryRows db)).map (locEntry (salaryRows db))))
  · intro db e he
    have he1 : e ∈ insSort byCountDesc
        ((groupKeys (salaryRows db)).map (locEntry (salaryRows db))) :=
      List.mem_of_mem_take he
    have he2 : e ∈ (groupKeys (salaryRows db)).map (locEntry (salaryRows db)) :=
      (mem_insSort byCountDesc _ e).mp he1
    obtain ⟨k, hk, hek⟩ := List.mem_map.mp he2
    subst hek
    refine ⟨rfl, ?_, rfl⟩
    apply locGroup_pos
    rcases mem_groupKeys_exists (salaryRows db) [] k hk with h1 | h2
    · simp at h1
    · exact h2
  · simp +decide [get_salary_analysis, salaryRows, groupKeys, locEntry, locGroup,
      insSort, insertLe, byCountDesc, rowSalaryNum, castUnsigned, digitsToNat,
      exampleDb, exampleRow]
    norm_num

/-- Witness for C7: the Dhaka group of the example table, with the
membership hypothesis discharged concretely. -/
theorem get_salary_analysis_correct_w :
    ("Dhaka", 2, (40000 : Rat)) ∈ get_salary_analysis exampleDb ∧
    (2 = (locGroup (salaryRows exampleDb) "Dhaka").length ∧ 0 < 2 ∧
     (40000 : Rat) = ((locGroup (salaryRows exampleDb) "Dhaka").foldl
         (fun acc r => acc + (rowSalaryNum r : Rat)) 0) /
       ((locGroup (salaryRows exampleDb) "Dhaka").length : Rat)) := by
  have hmem : ("Dhaka", 2, (40000 : Rat)) ∈ get_salary_analysis exampleDb := by
    rw [get_salary_analysis_correct.2.2.2]
    exact List.mem_cons_self _ _
  exact ⟨hmem,
    get_salary_analysis_correct.2.2.1 exampleDb ("Dhaka", 2, (40000 : Rat)) hmem⟩

/-- C8: Keyword and page noninterference in the Bdjobs extractor.  For
a fixed environment of page responses, the scraped job list is
identical for any two `keywords` arguments, and every page iteration
requests the same fixed URL `self.search_url` (the `params` dict is
built but never passed to `get_page_content`). -/
theorem bdjobs_keyword_page_noninterference (uj : String → String → String)
    (today : String) (env : Nat → String → Option (List BdElement))
    (kw kw' : Option (List String)) (max_pages : Nat) :
    (bdjobs_scrape_jobs uj today env kw max_pages).1 =
      (bdjobs_scrape_jobs uj today env kw' max_pages).1 ∧
    (bdjobs_scrape_jobs uj today env kw max_pages).2 =
      List.replicate max_pages bdjobs_search_url :=
  bdjobs_go_spec uj today env kw kw' max_pages 1

/-- C9: The Jobs.com.bd extractor contributes no records:
`extract_job_data` returns `None` on every input (its body is a bare
`pass`), hence `scrape_jobs` returns the empty list for every keywords
list, every `max_pages`, and every environment of fetched pages. -/
theorem jobscom_scraper_empty :
    (∀ e : JobscomElement, jobscom_extract_job_data e = none) ∧
    ∀ (env : Nat → String → Option (List JobscomElement))
      (kw : Option (List String)) (mp : Nat),
      (jobscom_scrape_jobs env kw mp).1 = [] :=
  ⟨fun _ => rfl, fun env _ mp => jobscom_go_nil env mp 1⟩

/-- C5: Salary normalization.  `parse_salary` returns `None` for null
or empty input; for every input whose cleaned text case-insensitively
equals `negotiable` it returns the canonical token `"Negotiable"`; and
for every input on which one of the three currency-amount patterns
matches it returns the cleaned text unchanged. -/
theorem parse_salary_normalization :
    parse_salary none = none ∧ parse_salary (some "") = none ∧
    (∀ s, pyLower (clean_text s).data = "negotiable".data →
      parse_salary (some s) = some "Negotiable") ∧
    (∀ s, (searchP pat1 (clean_text s).data || searchP pat2 (clean_text s).data ||
        searchP pat3 (clean_text s).data) = true →
      parse_salary (some s) = some (clean_text s)) := by
  refine ⟨rfl, rfl, ?_, ?_⟩
  · intro s h
    have hs : s ≠ "" := by
      intro he
      subst he
      exact absurd h (by decide)
    have hnd := noDigit_of_lower_negotiable (clean_text s).data h
    obtain ⟨h1, h2, h3⟩ := searches_false_no_digit (clean_text s).data hnd
    simp only [parse_salary]
    rw [if_neg hs]
    simp [h1, h2, h3, h]
  · intro s hcond
    have hs : s ≠ "" := by
      intro he
      subst he
      exact absurd hcond (by decide)
    simp only [parse_salary]
    rw [if_neg hs]
    simp [hcond]

/-- Witness for C5 at `" NEGOTIABLE"` and `"BDT 30,000 - 40,000"`. -/
theorem parse_salary_normalization_w :
    (pyLower (clean_text " NEGOTIABLE").data = "negotiable".data ∧
     parse_salary (some " NEGOTIABLE") = some "Negotiable") ∧
    ((searchP pat1 (clean_text "BDT 30,000 - 40,000").data ||
      searchP pat2 (clean_text "BDT 30,000 - 40,000").data ||
      searchP pat3 (clean_text "BDT 30,000 - 40,000").data) = true ∧
     parse_salary (some "BDT 30,000 - 40,000") =
       some (clean_text "BDT 30,000 - 40,000")) :=
  ⟨⟨by decide, parse_salary_normalization.2.2.1 " NEGOTIABLE" (by decide)⟩,
   ⟨by decide, parse_salary_normalization.2.2.2 "BDT 30,000 - 40,000" (by decide)⟩⟩

/-- C6: `clean_text` idempotence and null handling.  For every string,
cleaning twice equals cleaning once; null or empty input yields the
empty string; and cleaned text has every whitespace character collapsed
to a plain `' '`, no two adjacent whitespace characters, and no leading
or trailing whitespace. -/
theorem clean_text_idempotent :
    (∀ s, clean_text (clean_text s) = clean_text s) ∧
    (clean_text "" = "" ∧ clean_text_opt none = "") ∧
    (∀ s c, c ∈ (clean_text s).data → isPS c = true → c = ' ') ∧
    (∀ s, headOkB (clean_text s).data = true ∧
      noTrailB (clean_text s).data = true) ∧
    (∀ s, (clean_text s).data.Chain' fun a b => ¬(isPS a = true ∧ isPS b = true)) := by
  refine ⟨clean_text_idem_aux, ⟨rfl, rfl⟩, ?_, ?_, ?_⟩
  · intro s c hc hps
    exact good_all_space _ (clean_text_good s) c hc hps
  · intro s
    exact ⟨good_head _ (clean_text_good s), good_noTrailB _ (clean_text_good s)⟩
  · intro s
    exact good_chain _ (clean_text_good s)

/-- Witness for C6 at a concrete messy string and whitespace character. -/
theorem clean_text_idempotent_w :
    clean_text (clean_text "  a \t b ") = clean_text "  a \t b " ∧
    ' ' ∈ (clean_text "  a \t b ").data ∧ isPS ' ' = true ∧ (' ' : Char) = ' ' :=
  ⟨clean_text_idempotent.1 "  a \t b ", by decide, by decide,
   clean_text_idempotent.2.2.1 "  a \t b " ' ' (by decide) (by decide)⟩

/-- C10: Notification is conditional on new insertions.  Starting a
cycle with an empty `new_jobs_today` (the class invariant: it is
initialized empty and reset at the end of each cycle), the notifier is
invoked iff at least one record was newly inserted in that cycle, and
afterwards `new_jobs_today` is reset to empty. -/
theorem run_daily_scrape_notification (cfg : EmailConfig) (st : ScraperState)
    (outcomes : List (Except String (List JobListing)))
    (h : st.new_jobs_today = []) :
    ((run_daily_scrape cfg st outcomes).2.1 = true ↔
      newly_inserted st.db (collect_results outcomes) ≠ []) ∧
    (run_daily_scrape cfg st outcomes).1.new_jobs_today = [] := by
  obtain ⟨db, njt⟩ := st
  simp only at h
  subst h
  constructor
  · simp [run_daily_scrape, scrape_all_portals, newly_inserted,
      List.isEmpty_eq_false]
  · simp [run_daily_scrape]

/-- Witness for C10: one succeeding and one raising extractor against
an empty database; the hypothesis is the empty initial
`new_jobs_today`. -/
theorem run_daily_scrape_notification_w :
    (ScraperState.mk [] []).new_jobs_today = [] ∧
    (((run_daily_scrape ⟨some "a", some "b", []⟩ ⟨[], []⟩
          [.ok [sampleJob], .error "boom"]).2.1 = true ↔
        newly_inserted (ScraperState.mk [] []).db
          (collect_results [.ok [sampleJob], .error "boom"]) ≠ []) ∧
     (run_daily_scrape ⟨some "a", some "b", []⟩ ⟨[], []⟩
        [.ok [sampleJob], .error "boom"]).1.new_jobs_today = []) :=
  ⟨rfl, run_daily_scrape_notification ⟨some "a", some "b", []⟩ ⟨[], []⟩
    [.ok [sampleJob], .error "boom"] rfl⟩

end JobScraper
